import Mathlib

/-!
Shallow embedding of runtime/recompile_mods.py (the mcp_rebuild script).

The development translates, directly from the Python source, the pieces of
the script that the specification's claims are about: the CONF_TOKEN
template engine of Project.replace_conf, project discovery in
Project.collect_projects, the file walks of Project.collect_files and
Project.copy_files, the dependency handling of Project.compile, the
packaging predicate of Project.package, the patch-target resolution of
Project.apply_patch, and the top-level build loops together with the
warning and error tables and the final exit code.

Filesystem reads are modelled by explicit data (directory trees, lookup
functions); subprocess invocations and the external patch-application step
are modelled by their observable outcome, which the script only consumes
as a success or failure signal.
-/

deriving instance DecidableEq for Except

namespace MCPRebuild

/-- Build variants: CLIENT, SERVER, FORGE = range(3) in the script. -/
inductive Side where
  | client
  | server
  | forge
deriving DecidableEq, Repr

/-! ## Template engine: CONF_TOKEN = re.compile("%conf:([^%]*)%")

Project.replace_conf splits a string with CONF_TOKEN.split, obtaining
literal text at even indices and token keys at odd indices.  We model the
split as a list of segments.  The project configuration (Project.get_config
with data_type=str, default None) is modelled as a partial map from keys to
values; the project name attribute is a further parameter.  All text is
List Char so that the regular-expression scan can be stated directly. -/

/-- One piece of the CONF_TOKEN split: literal text (even indices of
re.split) or a token key (odd indices, the captured group). -/
inductive Seg where
  | lit (s : List Char)
  | tok (k : List Char)
deriving DecidableEq, Repr

/-- Attempt to match the regex at the head of the input: the six characters
of the opening delimiter, then the captured group of characters other than
the percent sign, then the closing percent sign.  Returns the captured key
and the input after the match. -/
def matchAt (l : List Char) : Option (List Char × List Char) :=
  if l.take 6 = "%conf:".toList then
    match (l.drop 6).dropWhile (fun c => c != '%') with
    | '%' :: rest => some ((l.drop 6).takeWhile (fun c => c != '%'), rest)
    | _ => none
  else none

/-- First match of CONF_TOKEN in the input: the text before the match, the
captured key, and the input after the match. -/
def findMarker : List Char → Option (List Char × List Char × List Char)
  | [] => none
  | c :: cs =>
    match matchAt (c :: cs) with
    | some (k, rest) => some ([], k, rest)
    | none =>
      match findMarker cs with
      | some (p, k, rest) => some (c :: p, k, rest)
      | none => none

/-- Fuelled CONF_TOKEN.split.  Every match consumes at least seven
characters, so fuel equal to the input length always suffices. -/
def splitConfF : Nat → List Char → List Seg
  | 0, s => [Seg.lit s]
  | Nat.succ fuel, s =>
    match findMarker s with
    | none => [Seg.lit s]
    | some (p, k, rest) => Seg.lit p :: Seg.tok k :: splitConfF fuel rest

/-- CONF_TOKEN.split as used by Project.replace_conf. -/
def splitConf (s : List Char) : List Seg := splitConfF s.length s

/-- Token-substitution loop of Project.replace_conf: even segments are
copied verbatim; for odd segments the configuration is consulted, the
reserved key PROJECT_NAME falls back to the project name attribute, and
any other unconfigured key raises CompileFailed, modelled as an error
carrying the offending key.  The script runs this loop twice, once over
the shortened file name and once over the file contents; both loops are
textually identical in the source and are modelled by this one function. -/
def renderSegs (conf : List Char → Option (List Char)) (name : List Char) :
    List Seg → Except (List Char) (List Char)
  | [] => Except.ok []
  | Seg.lit s :: rest =>
    match renderSegs conf name rest with
    | Except.ok out => Except.ok (s ++ out)
    | Except.error e => Except.error e
  | Seg.tok k :: rest =>
    match conf k with
    | some v =>
      match renderSegs conf name rest with
      | Except.ok out => Except.ok (v ++ out)
      | Except.error e => Except.error e
    | none =>
      if k = "PROJECT_NAME".toList then
        match renderSegs conf name rest with
        | Except.ok out => Except.ok (name ++ out)
        | Except.error e => Except.error e
      else Except.error k

/-- Project.replace_conf on one piece of text (or one path): split on
CONF_TOKEN, then substitute every token. -/
def replace_conf (conf : List Char → Option (List Char)) (name : List Char)
    (text : List Char) : Except (List Char) (List Char) :=
  renderSegs conf name (splitConf text)

/-! Helper lemmas about the tokenizer. -/

theorem takeWhile_no_pct (k : List Char) (hk : ∀ c ∈ k, c ≠ '%') :
    (k ++ ['%']).takeWhile (fun c => c != '%') = k := by
  induction k with
  | nil => simp [List.takeWhile]
  | cons c cs ih =>
    have hc : c ≠ '%' := hk c (by simp)
    have hcs : ∀ x ∈ cs, x ≠ '%' := fun x hx => hk x (by simp [hx])
    have hb : (c != '%') = true := bne_iff_ne.mpr hc
    simp [List.takeWhile, hb, ih hcs]

theorem dropWhile_no_pct (k : List Char) (hk : ∀ c ∈ k, c ≠ '%') :
    (k ++ ['%']).dropWhile (fun c => c != '%') = ['%'] := by
  induction k with
  | nil => simp [List.dropWhile]
  | cons c cs ih =>
    have hc : c ≠ '%' := hk c (by simp)
    have hcs : ∀ x ∈ cs, x ≠ '%' := fun x hx => hk x (by simp [hx])
    have hb : (c != '%') = true := bne_iff_ne.mpr hc
    simp [List.dropWhile, hb, ih hcs]

theorem marker_matchAt (k : List Char) (hk : ∀ c ∈ k, c ≠ '%') :
    matchAt ("%conf:".toList ++ k ++ ['%']) = some (k, []) := by
  unfold matchAt
  rw [show ("%conf:".toList ++ k ++ ['%']).take 6 = "%conf:".toList from rfl,
      show ("%conf:".toList ++ k ++ ['%']).drop 6 = k ++ ['%'] from rfl,
      if_pos rfl, dropWhile_no_pct k hk, takeWhile_no_pct k hk]
  rfl

theorem splitConfF_nil (fuel : Nat) : splitConfF fuel [] = [Seg.lit []] := by
  cases fuel <;> simp [splitConfF, findMarker]

theorem marker_split (k : List Char) (hk : ∀ c ∈ k, c ≠ '%') :
    splitConf ("%conf:".toList ++ k ++ ['%']) = [Seg.lit [], Seg.tok k, Seg.lit []] := by
  have hlen : ("%conf:".toList ++ k ++ ['%']).length = Nat.succ (k.length + 6) := by
    simp [List.length_append]
  have hfm : findMarker ("%conf:".toList ++ k ++ ['%']) = some ([], k, []) := by
    have hm2 : matchAt ('%' :: 'c' :: 'o' :: 'n' :: 'f' :: ':' :: (k ++ ['%'])) = some (k, []) :=
      marker_matchAt k hk
    show findMarker ('%' :: 'c' :: 'o' :: 'n' :: 'f' :: ':' :: (k ++ ['%'])) = some ([], k, [])
    simp only [findMarker]
    rw [hm2]
  unfold splitConf
  rw [hlen, splitConfF, hfm]
  simp [splitConfF_nil]

/-- Rendering errors out, naming an unconfigured non-reserved key, whenever
the segment list contains such a token. -/
theorem renderSegs_error_of_bad (conf : List Char → Option (List Char))
    (name : List Char) :
    ∀ segs : List Seg,
      (∃ k, Seg.tok k ∈ segs ∧ conf k = none ∧ k ≠ "PROJECT_NAME".toList) →
      ∃ e, renderSegs conf name segs = Except.error e ∧
        conf e = none ∧ e ≠ "PROJECT_NAME".toList := by
  intro segs
  induction segs with
  | nil => rintro ⟨k, hk, -, -⟩; simp at hk
  | cons s rest ih =>
    rintro ⟨k, hk, hconf, hpn⟩
    cases s with
    | lit t =>
      have hmem : Seg.tok k ∈ rest := by
        rcases List.mem_cons.mp hk with h | h
        · cases h
        · exact h
      obtain ⟨e, he, hce, hpe⟩ := ih ⟨k, hmem, hconf, hpn⟩
      exact ⟨e, by simp [renderSegs, he], hce, hpe⟩
    | tok k2 =>
      by_cases hk2 : conf k2 = none
      · by_cases hpn2 : k2 = "PROJECT_NAME".toList
        · have hmem : Seg.tok k ∈ rest := by
            rcases List.mem_cons.mp hk with h | h
            · injection h with h2; rw [h2] at hpn; exact absurd hpn2 hpn
            · exact h
          obtain ⟨e, he, hce, hpe⟩ := ih ⟨k, hmem, hconf, hpn⟩
          refine ⟨e, ?_, hce, hpe⟩
          simp only [renderSegs, hk2, he]
          rw [if_pos hpn2]
        · refine ⟨k2, ?_, hk2, hpn2⟩
          simp only [renderSegs, hk2]
          rw [if_neg hpn2]
      · obtain ⟨v, hv⟩ := Option.ne_none_iff_exists.mp hk2
        have hmem : Seg.tok k ∈ rest := by
          rcases List.mem_cons.mp hk with h | h
          · injection h with h2; rw [h2] at hconf; rw [hconf] at hv; cases hv
          · exact h
        obtain ⟨e, he, hce, hpe⟩ := ih ⟨k, hmem, hconf, hpn⟩
        refine ⟨e, ?_, hce, hpe⟩
        rw [renderSegs, ← hv, he]

/-- Rendering succeeds whenever every token of the segment list is the
reserved PROJECT_NAME key. -/
theorem renderSegs_ok_of_reserved (conf : List Char → Option (List Char))
    (name : List Char) :
    ∀ segs : List Seg,
      (∀ k, Seg.tok k ∈ segs → k = "PROJECT_NAME".toList) →
      ∃ out, renderSegs conf name segs = Except.ok out := by
  intro segs
  induction segs with
  | nil => intro _; exact ⟨[], rfl⟩
  | cons s rest ih =>
    intro hall
    have hrest : ∀ k, Seg.tok k ∈ rest → k = "PROJECT_NAME".toList :=
      fun k hk => hall k (List.mem_cons_of_mem _ hk)
    obtain ⟨out, hout⟩ := ih hrest
    cases s with
    | lit t => exact ⟨t ++ out, by simp [renderSegs, hout]⟩
    | tok k2 =>
      have hk2 : k2 = "PROJECT_NAME".toList := hall k2 (by simp)
      cases hv : conf k2 with
      | some v => exact ⟨v ++ out, by simp only [renderSegs, hv, hout]⟩
      | none =>
        refine ⟨name ++ out, ?_⟩
        simp only [renderSegs, hv, hout]
        rw [if_pos hk2]

/-- C5: rendering text or a path containing a token marker whose key has no
configuration artifact and is not the reserved PROJECT_NAME key fails the
enclosing operation with the expected CompileFailed condition naming such a
key; text whose token markers are all the reserved PROJECT_NAME key always
renders, and the single PROJECT_NAME marker renders to the project name
attribute even when no PROJECT_NAME configuration artifact exists. -/
theorem claim_C5 (conf : List Char → Option (List Char)) (name text : List Char) :
    ((∃ k, Seg.tok k ∈ splitConf text ∧ conf k = none ∧ k ≠ "PROJECT_NAME".toList) →
      ∃ e, replace_conf conf name text = Except.error e ∧
        conf e = none ∧ e ≠ "PROJECT_NAME".toList) ∧
    ((∀ k, Seg.tok k ∈ splitConf text → k = "PROJECT_NAME".toList) →
      ∃ out, replace_conf conf name text = Except.ok out) ∧
    (conf ("PROJECT_NAME".toList) = none →
      replace_conf conf name ("%conf:".toList ++ "PROJECT_NAME".toList ++ ['%'])
        = Except.ok name) := by
  refine ⟨fun h => renderSegs_error_of_bad conf name _ h,
          fun h => renderSegs_ok_of_reserved conf name _ h, fun hpn => ?_⟩
  unfold replace_conf
  rw [marker_split _ (by decide)]
  simp only [renderSegs, hpn]
  simp

/-- Configuration store used by the template-engine witnesses: only the key
VERSION carries an artifact, whose trimmed contents are 1.2. -/
def confW (k : List Char) : Option (List Char) :=
  if k = "VERSION".toList then some ("1.2".toList) else none

/-- Witness for C5 at concrete inputs: a MISSING token fails naming it, and
the PROJECT_NAME marker renders to the name attribute with no artifact. -/
theorem claim_C5_witness :
    (∃ e, replace_conf confW ("Mine".toList) ("%conf:MISSING%".toList) = Except.error e ∧
       confW e = none ∧ e ≠ "PROJECT_NAME".toList) ∧
    replace_conf confW ("Mine".toList) ("%conf:".toList ++ "PROJECT_NAME".toList ++ ['%'])
      = Except.ok ("Mine".toList) := by
  constructor
  · exact (claim_C5 confW ("Mine".toList) ("%conf:MISSING%".toList)).1
      ⟨"MISSING".toList, by decide, by decide, by decide⟩
  · exact (claim_C5 confW ("Mine".toList) ("%conf:MISSING%".toList)).2.2 (by decide)

/-- C6: template rendering returns marker-free text unchanged, and renders
the single marker of a configured (key, value) pair to exactly the value. -/
theorem claim_C6 (conf : List Char → Option (List Char)) (name text k v : List Char)
    (hfree : findMarker text = none) (hk : ∀ c ∈ k, c ≠ '%') (hv : conf k = some v) :
    replace_conf conf name text = Except.ok text ∧
    replace_conf conf name ("%conf:".toList ++ k ++ ['%']) = Except.ok v := by
  constructor
  · unfold replace_conf splitConf
    cases text with
    | nil => simp [splitConfF, findMarker, renderSegs]
    | cons c cs =>
      rw [show (c :: cs).length = Nat.succ cs.length from rfl, splitConfF, hfree]
      simp [renderSegs]
  · unfold replace_conf
    rw [marker_split k hk]
    simp [renderSegs, hv]

/-- Witness for C6 at concrete inputs. -/
theorem claim_C6_witness :
    replace_conf confW ("Mine".toList) ("abc".toList) = Except.ok ("abc".toList) ∧
    replace_conf confW ("Mine".toList) ("%conf:".toList ++ "VERSION".toList ++ ['%'])
      = Except.ok ("1.2".toList) :=
  claim_C6 confW ("Mine".toList) ("abc".toList) ("VERSION".toList) ("1.2".toList)
    (by decide) (by decide) (by decide)

/-! ## Project discovery: Project.collect_projects

The walk sees, for each directory, the plain files directly inside it and
its subdirectories; the artifacts inside the conf subdirectory are kept as
a separate list, standing for the files Project.get_config with
data_type=bool tests for existence. -/

/-- Directory tree as discovery sees it. -/
inductive Dir where
  | node (files : List String) (conf : List String) (subdirs : List Dir)

/-- Marker check of the walk: DISABLED in files or DISABLE in files. -/
def hasDisabledMarker (files : List String) : Bool :=
  files.contains ("DISABLED") || files.contains ("DISABLE")

/-- Disabled flag of Project.init: conf/DISABLE or conf/DISABLED exists. -/
def confDisabled (conf : List String) : Bool :=
  conf.contains ("DISABLE") || conf.contains ("DISABLED")

/-- The os.walk loop of Project.collect_projects over a worklist of
directories in walk order: a disabled marker prunes the whole subtree, a
CATEGORY marker recurses into the children without creating a project, and
otherwise the directory is a leaf project, pruned below, appended exactly
when its configuration disabled flag is off. -/
def collect_projects_list : List Dir → List Dir
  | [] => []
  | Dir.node files conf subdirs :: rest =>
    if hasDisabledMarker files then collect_projects_list rest
    else if files.contains ("CATEGORY") then
      collect_projects_list subdirs ++ collect_projects_list rest
    else if confDisabled conf then collect_projects_list rest
    else Dir.node files conf subdirs :: collect_projects_list rest
termination_by l => sizeOf l
decreasing_by
  all_goals simp_wf
  all_goals omega

/-- Project.collect_projects(root, projects): the buildable projects found
under root, in walk order. -/
def collect_projects (root : Dir) : List Dir := collect_projects_list [root]

/-- Every directory the walk emits as a buildable project has neither the
disabled marker nor the configuration disabled flag. -/
theorem collect_projects_list_active :
    ∀ l : List Dir, ∀ d ∈ collect_projects_list l,
      ∃ files conf subdirs, d = Dir.node files conf subdirs ∧
        hasDisabledMarker files = false ∧ confDisabled conf = false := by
  intro l
  induction l using collect_projects_list.induct with
  | case1 => intro d hd; simp [collect_projects_list] at hd
  | case2 files conf subdirs rest hmark ih =>
    intro d hd
    rw [collect_projects_list, if_pos hmark] at hd
    exact ih d hd
  | case3 files conf subdirs rest hmark hcat ihsub ihrest =>
    intro d hd
    rw [collect_projects_list, if_neg hmark, if_pos hcat] at hd
    rcases List.mem_append.mp hd with h | h
    · exact ihsub d h
    · exact ihrest d h
  | case4 files conf subdirs rest hmark hcat hdis ih =>
    intro d hd
    rw [collect_projects_list, if_neg hmark, if_neg hcat, if_pos hdis] at hd
    exact ih d hd
  | case5 files conf subdirs rest hmark hcat hdis ih =>
    intro d hd
    rw [collect_projects_list, if_neg hmark, if_neg hcat, if_neg hdis] at hd
    rcases List.mem_cons.mp hd with h | h
    · exact ⟨files, conf, subdirs, h, by simp [Bool.not_eq_true] at hmark; exact hmark,
        by simp [Bool.not_eq_true] at hdis; exact hdis⟩
    · exact ih d h

/-- C7: with a disabled marker present the entire subtree is skipped without
descending and no project is created; with a category marker discovery
descends into the children without creating a project; otherwise the
directory is a leaf (no further descent) and becomes a project exactly when
its configuration disabled flag is off; and every directory in the
buildable sequence has neither the disabled marker nor the configuration
disabled flag. -/
theorem claim_C7 :
    (∀ files conf subdirs rest, hasDisabledMarker files = true →
       collect_projects_list (Dir.node files conf subdirs :: rest)
         = collect_projects_list rest) ∧
    (∀ files conf subdirs rest, ¬hasDisabledMarker files = true →
       files.contains ("CATEGORY") = true →
       collect_projects_list (Dir.node files conf subdirs :: rest)
         = collect_projects_list subdirs ++ collect_projects_list rest) ∧
    (∀ files conf subdirs rest, ¬hasDisabledMarker files = true →
       ¬files.contains ("CATEGORY") = true → ¬confDisabled conf = true →
       collect_projects_list (Dir.node files conf subdirs :: rest)
         = Dir.node files conf subdirs :: collect_projects_list rest) ∧
    (∀ files conf subdirs rest, ¬hasDisabledMarker files = true →
       ¬files.contains ("CATEGORY") = true → confDisabled conf = true →
       collect_projects_list (Dir.node files conf subdirs :: rest)
         = collect_projects_list rest) ∧
    (∀ root d, d ∈ collect_projects root →
       ∃ files conf subdirs, d = Dir.node files conf subdirs ∧
         hasDisabledMarker files = false ∧ confDisabled conf = false) := by
  refine ⟨?_, ?_, ?_, ?_, ?_⟩
  · intro files conf subdirs rest hmark
    rw [collect_projects_list, if_pos hmark]
  · intro files conf subdirs rest hmark hcat
    rw [collect_projects_list, if_neg hmark, if_pos hcat]
  · intro files conf subdirs rest hmark hcat hdis
    rw [collect_projects_list, if_neg hmark, if_neg hcat, if_neg hdis]
  · intro files conf subdirs rest hmark hcat hdis
    rw [collect_projects_list, if_neg hmark, if_neg hcat, if_pos hdis]
  · intro root d hd
    exact collect_projects_list_active [root] d hd

/-- Witness for C7 at concrete directories: a disabled subtree vanishes, a
category recurses, a plain directory with a subdirectory is a leaf project,
a conf-disabled directory is excluded, and a project found under a category
root is active. -/
theorem claim_C7_witness :
    (collect_projects_list [Dir.node (["DISABLED"]) [] [Dir.node [] [] []]]
       = collect_projects_list []) ∧
    (collect_projects_list [Dir.node (["CATEGORY"]) [] [Dir.node [] [] []]]
       = collect_projects_list [Dir.node [] [] []] ++ collect_projects_list []) ∧
    (collect_projects_list [Dir.node [] [] [Dir.node (["README"]) [] []]]
       = Dir.node [] [] [Dir.node (["README"]) [] []] :: collect_projects_list []) ∧
    (collect_projects_list [Dir.node [] (["DISABLE"]) []]
       = collect_projects_list []) ∧
    (∃ files conf subdirs, Dir.node [] [] [] = Dir.node files conf subdirs ∧
       hasDisabledMarker files = false ∧ confDisabled conf = false) := by
  refine ⟨claim_C7.1 _ _ _ _ (by decide),
          claim_C7.2.1 _ _ _ _ (by decide) (by decide),
          claim_C7.2.2.1 _ _ _ _ (by decide) (by decide) (by decide),
          claim_C7.2.2.2.1 _ _ _ _ (by decide) (by decide) (by decide),
          claim_C7.2.2.2.2 (Dir.node [] [] []) (Dir.node [] [] []) ?_⟩
  simp [collect_projects, collect_projects_list, hasDisabledMarker, confDisabled]

/-! ## Source walks: Project.collect_files and Project.copy_files -/

/-- File tree for the walks: the directory name, the plain files in it, and
the child directories. -/
inductive FTree where
  | node (name : String) (files : List String) (subdirs : List FTree)

/-- Index of the last dot of a name, if any. -/
def lastDotIdx : List Char → Option Nat
  | [] => none
  | c :: rest =>
    match lastDotIdx rest with
    | some i => some (i + 1)
    | none => if c = '.' then some 0 else none

/-- Lowercased extension: os.path.splitext(file)[1].lower() on a bare file
name, the part from the last dot on, with dots leading the name not
counting as an extension separator. -/
def extOf (f : String) : String :=
  match lastDotIdx f.toList with
  | none => ""
  | some i =>
    if (f.toList.take i).all (fun c => c == '.') then ""
    else String.mk ((f.toList.drop i).map Char.toLower)

/-- Test of name.startswith for the dot, over the characters. -/
def startsDot (s : String) : Bool :=
  match s.toList with
  | c :: _ => c == '.'
  | [] => false

/-- File filter of Project.collect_files: names beginning with a dot are
skipped, then the extension filter is applied when one was requested
(required_extension=None is modelled as none). -/
def keepFile (ext : Option String) (f : String) : Bool :=
  !(startsDot f) &&
    (match ext with
     | none => true
     | some e => extOf f == e)

/-- Walk of Project.collect_files below the root, producing root-relative
paths as component lists; a subdirectory whose name begins with a dot is
pruned before the walk descends into it (the pruning test appears on the
node itself here; os.walk applies it from the parent, with the same
effect). -/
def collect_files_list (ext : Option String) : List FTree → List (List String)
  | [] => []
  | FTree.node name files subdirs :: rest =>
    (if startsDot name then []
     else (files.filter (keepFile ext)).map (fun f => [name, f])
       ++ (collect_files_list ext subdirs).map (fun p => name :: p))
    ++ collect_files_list ext rest
termination_by l => sizeOf l
decreasing_by
  all_goals simp_wf
  all_goals omega

/-- Project.collect_files with relative=True: the files the walk collects
under the root, as root-relative component paths.  The root itself is
walked unconditionally; the source builds the same collection as a set. -/
def collect_files (ext : Option String) : FTree → List (List String)
  | FTree.node _ files subdirs =>
    (files.filter (keepFile ext)).map (fun f => [f]) ++ collect_files_list ext subdirs

/-- Walk of Project.copy_files below the root: the same dot rules without an
extension filter; the result lists the copied files as source-relative
component paths. -/
def copy_files_list : List FTree → List (List String)
  | [] => []
  | FTree.node name files subdirs :: rest =>
    (if startsDot name then []
     else (files.filter (fun f => !(startsDot f))).map (fun f => [name, f])
       ++ (copy_files_list subdirs).map (fun p => name :: p))
    ++ copy_files_list rest
termination_by l => sizeOf l
decreasing_by
  all_goals simp_wf
  all_goals omega

/-- Project.copy_files(source, dest, failcode): the source-relative paths of
the files copied into the destination. -/
def copy_files : FTree → List (List String)
  | FTree.node _ files subdirs =>
    (files.filter (fun f => !(startsDot f))).map (fun f => [f])
      ++ copy_files_list subdirs

/-- No component of any path collected below the root begins with a dot. -/
theorem collect_files_list_no_dot (ext : Option String) :
    ∀ l : List FTree, ∀ p ∈ collect_files_list ext l, ∀ comp ∈ p,
      startsDot comp = false := by
  intro l
  induction l using collect_files_list.induct ext with
  | case1 => intro p hp; simp [collect_files_list] at hp
  | case2 name files subdirs rest ihsub ihrest =>
    intro p hp comp hcomp
    rw [collect_files_list] at hp
    rcases List.mem_append.mp hp with h | h
    · by_cases hdot : startsDot name = true
      · rw [if_pos hdot] at h; simp at h
      · rw [if_neg hdot] at h
        rcases List.mem_append.mp h with h2 | h2
        · obtain ⟨f, hf, rfl⟩ := List.mem_map.mp h2
          obtain ⟨hfmem, hkeep⟩ := List.mem_filter.mp hf
          rcases List.mem_cons.mp hcomp with rfl | hcomp2
          · simpa using hdot
          · have : comp = f := by simpa using hcomp2
            subst this
            simp [keepFile] at hkeep
            exact hkeep.1
        · obtain ⟨q, hq, rfl⟩ := List.mem_map.mp h2
          rcases List.mem_cons.mp hcomp with rfl | hcomp2
          · simpa using hdot
          · exact ihsub q hq comp hcomp2
    · exact ihrest p h comp hcomp

/-- No component of any path copied below the source root begins with a
dot. -/
theorem copy_files_list_no_dot :
    ∀ l : List FTree, ∀ p ∈ copy_files_list l, ∀ comp ∈ p,
      startsDot comp = false := by
  intro l
  induction l using copy_files_list.induct with
  | case1 => intro p hp; simp [copy_files_list] at hp
  | case2 name files subdirs rest ihsub ihrest =>
    intro p hp comp hcomp
    rw [copy_files_list] at hp
    rcases List.mem_append.mp hp with h | h
    · by_cases hdot : startsDot name = true
      · rw [if_pos hdot] at h; simp at h
      · rw [if_neg hdot] at h
        rcases List.mem_append.mp h with h2 | h2
        · obtain ⟨f, hf, rfl⟩ := List.mem_map.mp h2
          obtain ⟨hfmem, hkeep⟩ := List.mem_filter.mp hf
          rcases List.mem_cons.mp hcomp with rfl | hcomp2
          · simpa using hdot
          · have : comp = f := by simpa using hcomp2
            subst this
            simpa using hkeep
        · obtain ⟨q, hq, rfl⟩ := List.mem_map.mp h2
          rcases List.mem_cons.mp hcomp with rfl | hcomp2
          · simpa using hdot
          · exact ihsub q hq comp hcomp2
    · exact ihrest p h comp hcomp

/-- C10: file collection and file copying exclude every file whose name
begins with a dot and never descend into a subdirectory whose name begins
with a dot, so no collected or copied path has a dot-prefixed component,
and dot-prefixed files are never compiled, staged by the copy walk, or
counted as patch documents. -/
theorem claim_C10 (ext : Option String) (t : FTree) :
    (∀ p ∈ collect_files ext t, ∀ comp ∈ p, startsDot comp = false) ∧
    (∀ p ∈ copy_files t, ∀ comp ∈ p, startsDot comp = false) := by
  constructor
  · intro p hp comp hcomp
    cases t with
    | node name files subdirs =>
      rw [collect_files] at hp
      rcases List.mem_append.mp hp with h | h
      · obtain ⟨f, hf, rfl⟩ := List.mem_map.mp h
        obtain ⟨hfmem, hkeep⟩ := List.mem_filter.mp hf
        have : comp = f := by simpa using hcomp
        subst this
        simp [keepFile] at hkeep
        exact hkeep.1
      · exact collect_files_list_no_dot ext subdirs p h comp hcomp
  · intro p hp comp hcomp
    cases t with
    | node name files subdirs =>
      rw [copy_files] at hp
      rcases List.mem_append.mp hp with h | h
      · obtain ⟨f, hf, rfl⟩ := List.mem_map.mp h
        obtain ⟨hfmem, hkeep⟩ := List.mem_filter.mp hf
        have : comp = f := by simpa using hcomp
        subst this
        simpa using hkeep
      · exact copy_files_list_no_dot subdirs p h comp hcomp

/-- Source tree used by the C10 witness: a visible package with a java file
beside a dot-file and a dot-directory. -/
def treeW : FTree :=
  FTree.node ("src") (["A.java", ".hidden.java"])
    [FTree.node (".git") (["B.java"]) [], FTree.node ("pkg") (["C.java"]) []]

/-- Witness for C10: the walked path pkg/C.java of the concrete tree has no
dot-prefixed component. -/
theorem claim_C10_witness :
    (startsDot ("pkg") = false) ∧
    (startsDot ("C.java") = false) := by
  have h := (claim_C10 (some (".java")) treeW).1 (["pkg", "C.java"])
    (by simp [treeW, collect_files, collect_files_list, keepFile, extOf, lastDotIdx]; decide)
  exact ⟨h ("pkg") (by simp), h ("C.java") (by simp)⟩

/-! ## Dependency handling in Project.compile

A dependency project is represented by its directory path, which is all
get_source_dirs reads; the lookup function stands for
all_projects.get(dep, None) over the projects_dict built from the full
project set. -/

/-- Project.get_source_dirs: the common source directory, then the
variant-specific one for client or server; the combined variant adds no
variant directory. -/
def get_source_dirs (dir : String) (side : Side) : List String :=
  [dir ++ "/src/common"] ++
    (match side with
     | Side.client => [dir ++ "/src/client"]
     | Side.server => [dir ++ "/src/server"]
     | Side.forge => [])

/-- Warning text recorded for a dependency missing from the project set. -/
def depWarning (dep : String) : String :=
  "Depends on " ++ dep ++ ", which is not available!"

/-- The dependency loop of Project.compile: starting from the search path
holding only the staging directory, each declared dependency either
appends its own source directories or, when absent from the project set,
appends a warning to the diagnostics and is skipped.  The pair carries the
search path and the recorded warnings. -/
def compile_source_dirs (lookup : String → Option String) (side : Side) :
    List String → List String → List String → List String × List String
  | [], dirs, warns => (dirs, warns)
  | dep :: rest, dirs, warns =>
    match lookup dep with
    | none => compile_source_dirs lookup side rest dirs (warns ++ [depWarning dep])
    | some d => compile_source_dirs lookup side rest (dirs ++ get_source_dirs d side) warns

theorem compile_source_dirs_spec (lookup : String → Option String) (side : Side) :
    ∀ deps dirs warns,
      compile_source_dirs lookup side deps dirs warns
        = (dirs ++ (deps.map (fun dep =>
             match lookup dep with
             | none => []
             | some d => get_source_dirs d side)).flatten,
           warns ++ (deps.filter (fun dep => (lookup dep).isNone)).map depWarning) := by
  intro deps
  induction deps with
  | nil => intro dirs warns; simp [compile_source_dirs]
  | cons dep rest ih =>
    intro dirs warns
    cases h : lookup dep with
    | none => simp [compile_source_dirs, h, ih]
    | some d => simp [compile_source_dirs, h, ih]

/-- C9: the compile search path is the staging directory followed, in
declaration order, by each resolvable dependency's own source directories
for the current variant; a dependency missing from the project set is
omitted from the path and instead records a warning naming it, without
aborting the unit (the loop always completes and returns). -/
theorem claim_C9 (tempDir : String) (lookup : String → Option String)
    (side : Side) (deps : List String) :
    compile_source_dirs lookup side deps [tempDir] []
      = (tempDir :: (deps.map (fun dep =>
           match lookup dep with
           | none => []
           | some d => get_source_dirs d side)).flatten,
         (deps.filter (fun dep => (lookup dep).isNone)).map depWarning) := by
  rw [compile_source_dirs_spec]
  simp

/-! ## Packaging: Project.package

Each of the five group directories the method visits is modelled as an
optional directory tree: none stands for a path that is not a directory
(or, for the compiled output, one that does not exist), some t for a real
directory.  The guard os.path.isdir(d) and os.listdir(d) of the source and
compiled blocks tests the direct listing of the tree, files and
subdirectories alike, while the archive contribution of a packaged group
is what self.zip walks below it: every file, recursively and unfiltered;
directories themselves are never written, so a directory whose listing
holds only empty subdirectories passes the guard yet contributes no entry.
The side-specific directories are selected exactly as the method does and
are never consulted for the combined variant, matching the guarded
references to the otherwise unbound locals.  Resource contents pass
through replace_conf in the source; the model records entries by path. -/

/-- Walk of self.zip below the current directory: every file of every
subtree, with no dot filtering, as relative component paths. -/
def zip_walk_list : List FTree → List (List String)
  | [] => []
  | FTree.node name files subdirs :: rest =>
    files.map (fun f => [name, f])
      ++ (zip_walk_list subdirs).map (fun p => name :: p)
      ++ zip_walk_list rest
termination_by l => sizeOf l
decreasing_by
  all_goals simp_wf
  all_goals omega

/-- Archive entries self.zip writes from a group directory: the files of
the full recursive os.walk; only files are written, never directories. -/
def zip_walk : FTree → List (List String)
  | FTree.node _ files subdirs =>
    files.map (fun f => [f]) ++ zip_walk_list subdirs

/-- Test of os.path.isdir(d) and os.listdir(d): the path is a directory
whose direct listing, files and subdirectories alike, is non-empty. -/
def hasListing : Option FTree → Bool
  | some (FTree.node _ (_ :: _) _) => true
  | some (FTree.node _ _ (_ :: _)) => true
  | _ => false

/-- Archive contribution of a group that gets packaged. -/
def contrib : Option FTree → List (List String)
  | none => []
  | some t => zip_walk t

structure PkgFS where
  commonSrc : Option FTree
  clientSrc : Option FTree
  serverSrc : Option FTree
  compiledOut : Option FTree
  commonRes : Option FTree
  clientRes : Option FTree
  serverRes : Option FTree

/-- The variant source directory src/client or src/server. -/
def variantSrc (side : Side) (fs : PkgFS) : Option FTree :=
  match side with
  | Side.client => fs.clientSrc
  | _ => fs.serverSrc

/-- The variant resource directory resources/client or resources/server. -/
def variantRes (side : Side) (fs : PkgFS) : Option FTree :=
  match side with
  | Side.client => fs.clientRes
  | _ => fs.serverRes

/-- Project.package: appends, in order, common source and variant source
(both skipped under hide_source, for the combined variant, or when the
directory is absent or has an empty listing), the compiled output (skipped
when absent or empty), then common and variant resources, for which only
os.path.isdir is tested, so an existing resource directory is packaged
even when empty.  Returns the created flag and the archive entries in
append order. -/
def package (side : Side) (hideSource : Bool) (fs : PkgFS) :
    Bool × List (List String) :=
  let g1 := !hideSource && hasListing fs.commonSrc
  let g2 := !hideSource && !(side == Side.forge) && hasListing (variantSrc side fs)
  let g3 := hasListing fs.compiledOut
  let g4 := (fs.commonRes).isSome
  let g5 := !(side == Side.forge) && (variantRes side fs).isSome
  (g1 || g2 || g3 || g4 || g5,
   (if g1 then contrib fs.commonSrc else [])
     ++ (if g2 then contrib (variantSrc side fs) else [])
     ++ (if g3 then contrib fs.compiledOut else [])
     ++ (if g4 then contrib fs.commonRes else [])
     ++ (if g5 then contrib (variantRes side fs) else []))

/-- Project layout whose only present group directory is an existing,
completely empty common resources directory. -/
def fsResOnly : PkgFS :=
  { commonSrc := none, clientSrc := none, serverSrc := none,
    compiledOut := none, commonRes := some (FTree.node ("common") [] []),
    clientRes := none, serverRes := none }

/-- Project layout whose only present group directory is a common source
directory holding a single empty subdirectory: its listing is non-empty,
so the guard os.path.isdir and os.listdir passes, but the zip walk finds
no file to write. -/
def fsEmptySub : PkgFS :=
  { commonSrc := some (FTree.node ("common") [] [FTree.node ("sub") [] []]),
    clientSrc := none, serverSrc := none, compiledOut := none,
    commonRes := none, clientRes := none, serverRes := none }

/-- Counterexample to C4 at two concrete inputs: an existing empty common
resources directory, and a common source directory holding only an empty
subdirectory, each make package report created while zero archive entries
were contributed, so created is not equivalent to some group having
contributed at least one entry. -/
theorem claim_C4_cx :
    ((package Side.client false fsResOnly).1 = true ∧
      (package Side.client false fsResOnly).2 = []) ∧
    ((package Side.client false fsEmptySub).1 = true ∧
      (package Side.client false fsEmptySub).2 = []) := by
  refine ⟨⟨?_, ?_⟩, ⟨?_, ?_⟩⟩ <;>
    simp [package, fsResOnly, fsEmptySub, hasListing, contrib, zip_walk,
      zip_walk_list, variantSrc, variantRes]

/-- C4 as amended: created is true exactly when some group contributed at
least one archive entry, or a packaged group contributed none, which
happens for an existing resources directory with no files anywhere
(common, or the variant one outside the combined variant) and for a source
or compiled directory whose direct listing is non-empty but which holds no
file anywhere, only empty subdirectories.  Absent directories, and source
or compiled directories with an empty listing, are skipped without error
and contribute nothing. -/
theorem claim_C4_amended (side : Side) (hideSource : Bool) (fs : PkgFS) :
    (package side hideSource fs).1 = true
      ↔ ((package side hideSource fs).2 ≠ []
          ∨ (fs.commonRes.isSome = true ∧ contrib fs.commonRes = [])
          ∨ (side ≠ Side.forge ∧ (variantRes side fs).isSome = true
              ∧ contrib (variantRes side fs) = [])
          ∨ (hideSource = false ∧ hasListing fs.commonSrc = true
              ∧ contrib fs.commonSrc = [])
          ∨ (hideSource = false ∧ side ≠ Side.forge
              ∧ hasListing (variantSrc side fs) = true
              ∧ contrib (variantSrc side fs) = [])
          ∨ (hasListing fs.compiledOut = true ∧ contrib fs.compiledOut = [])) := by
  simp only [package]
  constructor
  · intro h
    simp only [Bool.or_eq_true] at h
    rcases h with ((((h1 | h2) | h3) | h4) | h5)
    · have h1d := h1
      rw [Bool.and_eq_true] at h1d
      obtain ⟨hh, hl⟩ := h1d
      rw [Bool.not_eq_true'] at hh
      by_cases hc : contrib fs.commonSrc = []
      · exact Or.inr (Or.inr (Or.inr (Or.inl ⟨hh, hl, hc⟩)))
      · refine Or.inl ?_
        rw [if_pos h1]
        intro heq
        simp only [List.append_eq_nil] at heq
        tauto
    · have h2d := h2
      rw [Bool.and_eq_true, Bool.and_eq_true] at h2d
      obtain ⟨⟨hh, hf⟩, hl⟩ := h2d
      rw [Bool.not_eq_true'] at hh
      rw [Bool.not_eq_true'] at hf
      have hside : side ≠ Side.forge := beq_eq_false_iff_ne.mp hf
      by_cases hc : contrib (variantSrc side fs) = []
      · exact Or.inr (Or.inr (Or.inr (Or.inr (Or.inl ⟨hh, hside, hl, hc⟩))))
      · refine Or.inl ?_
        rw [if_pos h2]
        intro heq
        simp only [List.append_eq_nil] at heq
        tauto
    · by_cases hc : contrib fs.compiledOut = []
      · exact Or.inr (Or.inr (Or.inr (Or.inr (Or.inr ⟨h3, hc⟩))))
      · refine Or.inl ?_
        rw [if_pos h3]
        intro heq
        simp only [List.append_eq_nil] at heq
        tauto
    · by_cases hc : contrib fs.commonRes = []
      · exact Or.inr (Or.inl ⟨h4, hc⟩)
      · refine Or.inl ?_
        rw [if_pos h4]
        intro heq
        simp only [List.append_eq_nil] at heq
        tauto
    · have h5d := h5
      rw [Bool.and_eq_true] at h5d
      obtain ⟨hf, hs⟩ := h5d
      rw [Bool.not_eq_true'] at hf
      have hside : side ≠ Side.forge := beq_eq_false_iff_ne.mp hf
      by_cases hc : contrib (variantRes side fs) = []
      · exact Or.inr (Or.inr (Or.inl ⟨hside, hs, hc⟩))
      · refine Or.inl ?_
        rw [if_pos h5]
        intro heq
        simp only [List.append_eq_nil] at heq
        tauto
  · intro h
    rcases h with hE | ⟨h4, -⟩ | ⟨hside, h5, -⟩ | ⟨hh, h1, -⟩ | ⟨hh, hside, h2, -⟩ | ⟨h3, -⟩
    · by_contra hcr
      rw [Bool.not_eq_true] at hcr
      simp only [Bool.or_eq_false_iff] at hcr
      obtain ⟨⟨⟨⟨hg1, hg2⟩, hg3⟩, hg4⟩, hg5⟩ := hcr
      exact hE (by
        rw [if_neg (by simp [hg1]), if_neg (by simp [hg2]), if_neg (by simp [hg3]),
            if_neg (by simp [hg4]), if_neg (by simp [hg5])]
        rfl)
    · simp [h4]
    · have hbf : (side == Side.forge) = false := beq_eq_false_iff_ne.mpr hside
      simp [h5, hbf]
    · simp [hh, h1]
    · have hbf : (side == Side.forge) = false := beq_eq_false_iff_ne.mpr hside
      simp [hh, hbf, h2]
    · simp [h3]

/-! ## Patch-target resolution: Project.apply_patch

Paths are lists of components, already in normal form (os.path.normpath is
the identity on such relative paths).  The filesystem under the candidate
source roots is an existence predicate over full paths; the staging tree
is tracked explicitly as the directories and files created so far, with
the staging root itself (the empty path) existing from the start because
the caller has just created the output directory.  The patch document is
its shortened name, its per-file edit scripts (each carrying the optional
source and target headers), and the outcome of the final patchset.apply
call on the staged copies. -/

/-- One edit script of the parsed patch document. -/
structure PatchItem where
  source : Option (List String)
  target : Option (List String)
deriving DecidableEq, Repr

/-- Failure outcomes of apply_patch.  All cases but makedirsExists are
CompileFailed, a KnownFailure and hence an expected failure; makedirsExists
is the OSError that os.makedirs raises when the directory already exists,
an unexpected failure. -/
inductive PatchErr where
  | malformed (patchName : List String)
  | makedirsExists (d : List String)
  | noTarget (patchName : List String)
  | mismatch (patchName hint attempted : List String)
  | applyFailed (patchName : List String)
deriving DecidableEq, Repr

/-- Staging-tree state: existing directories, staged copies, and the
warnings recorded so far (patch name with the attempted target). -/
structure PatchState where
  dirs : List (List String)
  files : List (List String)
  warns : List (List String × List String)
deriving DecidableEq, Repr

/-- All the non-empty prefixes of a directory path. -/
def prefixesOf : List String → List (List String)
  | [] => []
  | c :: rest => [c] :: (prefixesOf rest).map (fun p => c :: p)

/-- os.makedirs: fails if the directory itself already exists, otherwise
creates it together with any missing intermediate directories. -/
def makedirs (dirs : List (List String)) (d : List String) :
    Option (List (List String)) :=
  if dirs.contains d then none
  else some ((prefixesOf d).filter (fun p => !(dirs.contains p)) ++ dirs)

/-- MCP_SRC of the script: the combined variant shares the client tree. -/
def MCP_SRC : Side → List String
  | Side.client => ["src", "minecraft"]
  | Side.server => ["src", "minecraft_server"]
  | Side.forge => ["src", "minecraft"]

/-- First index of the lowercase characters of .java inside a lowercased
component, if any. -/
def findSubIdx (pat : List Char) : List Char → Option Nat
  | [] => none
  | c :: cs =>
    if pat.isPrefixOf (c :: cs) then some 0
    else (findSubIdx pat cs).map (fun i => i + 1)

/-- Position of the first case-insensitive .java inside one component. -/
def javaPos (component : String) : Option Nat :=
  findSubIdx (".java".toList) (component.toList.map Char.toLower)

/-- Hinted target of a single-file patch: the shortened patch name cut just
after the first case-insensitive occurrence of .java (the slice keeps the
original casing); none when the name has no such occurrence, making the
document a multi-file patch. -/
def javaHint : List String → Option (List String)
  | [] => none
  | c :: rest =>
    match javaPos c with
    | some i => some [String.mk (c.toList.take (i + 5))]
    | none => (javaHint rest).map (fun t => c :: t)

/-- Candidate locations of one possible target: under the primary source
root, then under the fallback root when the variant has one. -/
def candidateRoots (src : List String) (fallback : Option (List String))
    (p : List String) : List (List String) :=
  [src ++ p] ++ (match fallback with | none => [] | some fb => [fb ++ p])

/-- Inner loop over the candidate locations of one possible target: every
location where the file exists triggers os.makedirs on the dirname of the
staging location followed by the copy; the loop does not stop at the first
hit.  The flag records whether any location hit so far. -/
def copyLoop (ex : List String → Bool) (p : List String) :
    List (List String) → PatchState → Bool → PatchState × Except PatchErr Bool
  | [], st, found => (st, Except.ok found)
  | sf :: rest, st, found =>
    if ex sf then
      match makedirs st.dirs p.dropLast with
      | none => (st, Except.error (PatchErr.makedirsExists p.dropLast))
      | some d2 =>
        copyLoop ex p rest { st with dirs := d2, files := st.files ++ [p] } true
    else copyLoop ex p rest st found

/-- Loop over the possible targets of one edit script, in order: the source
header, the target header, then the filename hint; None entries are
skipped, a possibility with no hit records a warning and the next one is
tried, and the first possibility with a hit resolves the script. -/
def possibleLoop (ex : List String → Bool) (src : List String)
    (fallback : Option (List String)) (patchName : List String) :
    List (Option (List String)) → PatchState →
      PatchState × Except PatchErr (Option (List String))
  | [], st => (st, Except.ok none)
  | none :: rest, st => possibleLoop ex src fallback patchName rest st
  | some p :: rest, st =>
    match copyLoop ex p (candidateRoots src fallback p) st false with
    | (st2, Except.error e) => (st2, Except.error e)
    | (st2, Except.ok true) => (st2, Except.ok (some p))
    | (st2, Except.ok false) =>
      possibleLoop ex src fallback patchName rest
        { st2 with warns := st2.warns ++ [(patchName, p)] }

/-- Loop over the edit scripts: an unresolved script raises the
CompileFailed for a patch specifying no file; a resolved single-file patch
whose target differs from the hint raises the mismatch CompileFailed
naming both; otherwise the staged location is added to the patched set. -/
def resolveItems (ex : List String → Bool) (src : List String)
    (fallback : Option (List String)) (patchName : List String)
    (hint : Option (List String)) :
    List PatchItem → PatchState → List (List String) →
      PatchState × Except PatchErr (List (List String))
  | [], st, patched => (st, Except.ok patched)
  | item :: rest, st, patched =>
    match possibleLoop ex src fallback patchName
        [item.source, item.target, hint] st with
    | (st2, Except.error e) => (st2, Except.error e)
    | (st2, Except.ok none) => (st2, Except.error (PatchErr.noTarget patchName))
    | (st2, Except.ok (some p)) =>
      match hint with
      | some t =>
        if p = t then
          resolveItems ex src fallback patchName hint rest st2 (patched ++ [p])
        else (st2, Except.error (PatchErr.mismatch patchName t p))
      | none => resolveItems ex src fallback patchName hint rest st2 (patched ++ [p])

/-- Project.apply_patch: parse (parsedOk models the truthiness of the
build_patch result), derive the hint, resolve and stage every edit script,
then apply the parsed edits to the staged copies (applies models the
patchset.apply outcome); the returned state carries the staging-tree side
effects, which persist even when the call raises. -/
def apply_patch (ex : List String → Bool) (side : Side)
    (patchName : List String) (items : List PatchItem) (parsedOk : Bool)
    (applies : Bool) (st : PatchState) :
    PatchState × Except PatchErr (List (List String)) :=
  if !parsedOk then (st, Except.error (PatchErr.malformed patchName))
  else
    let src := MCP_SRC side
    let fallback := if side = Side.forge then some (MCP_SRC Side.client) else none
    let hint := javaHint patchName
    match resolveItems ex src fallback patchName hint items st [] with
    | (st2, Except.error e) => (st2, Except.error e)
    | (st2, Except.ok patched) =>
      if applies then (st2, Except.ok patched)
      else (st2, Except.error (PatchErr.applyFailed patchName))

/-- Staging state at the start of a unit: the output root exists and is
empty. -/
def stEmpty : PatchState := { dirs := [[]], files := [], warns := [] }

/-- Filesystem of the C3 counterexample: only net/B.java exists, under the
client tree. -/
def exC3 (q : List String) : Bool := q == ["src", "minecraft", "net", "B.java"]

/-- Counterexample to C3: a single-file patch named net/A.java.diff whose
edit script declares net/B.java as its source resolves to net/B.java,
which differs from the hint net/A.java; apply_patch raises the expected
mismatch naming both paths, but the resolved original has already been
copied into the staging tree, so staged output exists. -/
theorem claim_C3_cx :
    apply_patch exC3 Side.client (["net", "A.java.diff"])
        [{ source := some (["net", "B.java"]), target := none }] true true stEmpty
      = ({ dirs := [["net"], []], files := [["net", "B.java"]], warns := [] },
         Except.error (PatchErr.mismatch (["net", "A.java.diff"])
           (["net", "A.java"]) (["net", "B.java"]))) ∧
    (apply_patch exC3 Side.client (["net", "A.java.diff"])
        [{ source := some (["net", "B.java"]), target := none }] true true stEmpty).1.files
      ≠ [] := by
  constructor
  · decide
  · decide

/-- C3 as amended: a single-file patch whose resolved target differs from
the filename-derived hint fails the unit with the expected mismatch
condition naming both paths and the patch is never applied; however the
resolved original file has already been copied into the staging tree by
the time the failure is raised, so one staged copy exists. -/
theorem claim_C3_amended (ex : List String → Bool) (patchName tVal p : List String)
    (item : PatchItem) (applies : Bool) (st : PatchState)
    (hhint : javaHint patchName = some tVal)
    (hsrc : item.source = some p)
    (hne : p ≠ tVal)
    (hex : ex (MCP_SRC Side.client ++ p) = true)
    (hdir : st.dirs.contains p.dropLast = false) :
    apply_patch ex Side.client patchName [item] true applies st
      = ({ st with
             dirs := (prefixesOf p.dropLast).filter
               (fun q => !(st.dirs.contains q)) ++ st.dirs,
             files := st.files ++ [p] },
         Except.error (PatchErr.mismatch patchName tVal p)) := by
  simp only [apply_patch, Bool.not_true, Bool.false_eq_true, if_false, hhint]
  rw [show (if Side.client = Side.forge then some (MCP_SRC Side.client) else none)
        = none from rfl]
  simp only [resolveItems, hsrc, possibleLoop, candidateRoots, copyLoop, hex,
    List.append_nil, if_true, makedirs, hdir, Bool.false_eq_true, if_false]
  simp [hne]

/-- Filesystem of the C3 witness: only pkg/C.java exists under the client
tree. -/
def exC3w (q : List String) : Bool := q == ["src", "minecraft", "pkg", "C.java"]

/-- Witness for the amended C3 at concrete inputs. -/
theorem claim_C3_amended_witness :
    apply_patch exC3w Side.client (["pkg", "D.java.patch"])
        [{ source := some (["pkg", "C.java"]), target := none }] true false stEmpty
      = ({ dirs := [["pkg"], []], files := [["pkg", "C.java"]], warns := [] },
         Except.error (PatchErr.mismatch (["pkg", "D.java.patch"])
           (["pkg", "D.java"]) (["pkg", "C.java"]))) :=
  claim_C3_amended exC3w (["pkg", "D.java.patch"]) (["pkg", "D.java"])
    (["pkg", "C.java"]) { source := some (["pkg", "C.java"]), target := none }
    false stEmpty (by decide) rfl (by decide) (by decide) (by decide)

/-- Filesystem of the C8 failing input: the shared combined tree
src/minecraft holds net/Foo.java. -/
def exC8 (q : List String) : Bool := q == ["src", "minecraft", "net", "Foo.java"]

/-- C8 at its failing input: for the combined variant the fallback root is
the same directory as the primary root, the candidate loop has no break
after its first hit, and the second iteration re-runs os.makedirs on the
directory the first iteration just created, so a patch whose target
resolves under the combined tree aborts the unit with the unexpected
makedirs failure right after staging the first copy, instead of stopping
at the first hit as the claim states.  The script's own make_if_needed
helper, used by copy_files, is what apply_patch would need here. -/
theorem claim_C8_bug :
    apply_patch exC8 Side.forge (["net", "Foo.java.diff"])
        [{ source := some (["net", "Foo.java"]), target := none }] true true stEmpty
      = ({ dirs := [["net"], []], files := [["net", "Foo.java"]], warns := [] },
         Except.error (PatchErr.makedirsExists (["net"]))) := by
  decide

/-! ## Build loops, diagnostics and exit code

The per-unit external work (create_or_clean and compile, package,
obfuscate) is modelled by its outcome per project and side; an error value
stands for the exception the stage raises, expected or not.  The errors
table is the collections.defaultdict keyed by project that add_error
appends to, and the final exit status is sys.exit(len(errors)) when the
table is non-empty and the implicit zero otherwise.  Warnings live in a
separate table that the exit computation never reads. -/

/-- Stages of one main-phase build unit. -/
inductive Stage where
  | compile
  | package
  | obfuscate
deriving DecidableEq, Repr

/-- Observable outcome of the external work of one build unit. -/
structure UnitSpec where
  compileRes : Except String Unit
  packageRes : Except String Bool
  obfuscateRes : Except String Unit
deriving DecidableEq, Repr

/-- One iteration of the try block of the main loop: compile, then package,
then obfuscate only when package created the archive; the first exception
aborts the remaining stages of this unit.  Returns the stages run and the
exception, if any. -/
def runUnit (u : UnitSpec) : List Stage × Option String :=
  match u.compileRes with
  | Except.error e => ([Stage.compile], some e)
  | Except.ok _ =>
    match u.packageRes with
    | Except.error e => ([Stage.compile, Stage.package], some e)
    | Except.ok created =>
      if created then
        match u.obfuscateRes with
        | Except.error e => ([Stage.compile, Stage.package, Stage.obfuscate], some e)
        | Except.ok _ => ([Stage.compile, Stage.package, Stage.obfuscate], none)
      else ([Stage.compile, Stage.package], none)

/-- Inner side loop of the main phase: every side of the project runs, and
a unit's exception becomes an add_error event. -/
def sideLoop (env : String → Side → UnitSpec) (p : String) :
    List Side → List (String × Side × List Stage) × List (String × Side × String)
  | [] => ([], [])
  | s :: rest =>
    let r := runUnit (env p s)
    let next := sideLoop env p rest
    ((p, s, r.1) :: next.1,
     (match r.2 with | some e => [(p, s, e)] | none => []) ++ next.2)

/-- Main build loop over the projects: the units attempted with their
stages, and the add_error events in order. -/
def mainLoop (env : String → Side → UnitSpec) :
    List String → List Side →
      List (String × Side × List Stage) × List (String × Side × String)
  | [], _ => ([], [])
  | p :: rest, sides =>
    let here := sideLoop env p sides
    let next := mainLoop env rest sides
    (here.1 ++ next.1, here.2 ++ next.2)

/-- The errors table: collections.defaultdict keyed by project, in first
insertion order, each project carrying its (side, error) entries. -/
abbrev ErrTable := List (String × List (Side × String))

/-- One add_error call. -/
def addError (t : ErrTable) (p : String) (s : Side) (e : String) : ErrTable :=
  if t.any (fun q => q.1 = p) then
    t.map (fun q => if q.1 = p then (q.1, q.2 ++ [(s, e)]) else q)
  else t ++ [(p, [(s, e)])]

/-- The errors table the run builds from its add_error events in order. -/
def errsFrom (events : List (String × Side × String)) : ErrTable :=
  events.foldl (fun t ev => addError t ev.1 ev.2.1 ev.2.2) []

/-- Final exit status: sys.exit(len(errors)) inside the `if errors` block,
and the implicit zero of falling off the end of the script otherwise. -/
def exitCode (t : ErrTable) : Nat := if t.isEmpty then 0 else t.length

/-- Total number of recorded error diagnostics across projects and sides. -/
def totalDiags (t : ErrTable) : Nat := (t.map (fun q => q.2.length)).sum

/-- Projects keying the errors table, in insertion order. -/
def keysOf (t : ErrTable) : List String := t.map (fun q => q.1)

theorem keysOf_addError (t : ErrTable) (p : String) (s : Side) (e : String) :
    keysOf (addError t p s e)
      = if p ∈ keysOf t then keysOf t else keysOf t ++ [p] := by
  by_cases hmem : p ∈ keysOf t
  · have hany : t.any (fun q => q.1 = p) = true := by
      obtain ⟨q, hq, hq1⟩ := List.mem_map.mp hmem
      exact List.any_eq_true.mpr ⟨q, hq, by simp [hq1]⟩
    rw [addError, if_pos hany, if_pos hmem]
    unfold keysOf
    rw [List.map_map]
    refine List.map_congr_left ?_
    intro q hq
    by_cases hqp : q.1 = p <;> simp [hqp]
  · have hany : t.any (fun q => q.1 = p) = false := by
      rw [List.any_eq_false]
      intro q hq
      simp only [decide_eq_true_eq]
      intro hq1
      exact hmem (List.mem_map.mpr ⟨q, hq, hq1⟩)
    rw [addError, if_neg (by simp [hany]), if_neg hmem]
    simp [keysOf]

theorem mem_keysOf_errsFrom_aux (events : List (String × Side × String)) :
    ∀ t p, (p ∈ keysOf (events.foldl (fun t ev => addError t ev.1 ev.2.1 ev.2.2) t)
      ↔ p ∈ keysOf t ∨ p ∈ events.map (fun x => x.1)) := by
  induction events with
  | nil => intro t p; simp
  | cons ev rest ih =>
    intro t p
    rw [List.foldl_cons, ih]
    rw [keysOf_addError]
    by_cases hmem : ev.1 ∈ keysOf t
    · rw [if_pos hmem]
      constructor
      · rintro (h | h)
        · exact Or.inl h
        · exact Or.inr (by simp [h])
      · rintro (h | h)
        · exact Or.inl h
        · rcases (by simpa using h : p = ev.1 ∨ p ∈ rest.map (fun x => x.1)) with rfl | h2
          · exact Or.inl hmem
          · exact Or.inr h2
    · rw [if_neg hmem]
      constructor
      · rintro (h | h)
        · rcases List.mem_append.mp h with h2 | h2
          · exact Or.inl h2
          · exact Or.inr (by simp [List.mem_singleton.mp h2])
        · exact Or.inr (by simp [h])
      · rintro (h | h)
        · exact Or.inl (List.mem_append.mpr (Or.inl h))
        · rcases (by simpa using h : p = ev.1 ∨ p ∈ rest.map (fun x => x.1)) with rfl | h2
          · exact Or.inl (List.mem_append.mpr (Or.inr (by simp)))
          · exact Or.inr h2

theorem nodup_keysOf_errsFrom_aux (events : List (String × Side × String)) :
    ∀ t, (keysOf t).Nodup →
      (keysOf (events.foldl (fun t ev => addError t ev.1 ev.2.1 ev.2.2) t)).Nodup := by
  induction events with
  | nil => intro t h; simpa using h
  | cons ev rest ih =>
    intro t h
    rw [List.foldl_cons]
    refine ih _ ?_
    rw [keysOf_addError]
    by_cases hmem : ev.1 ∈ keysOf t
    · rw [if_pos hmem]; exact h
    · rw [if_neg hmem]
      refine List.Nodup.append h (by simp) ?_
      intro x hx hx2
      rw [List.mem_singleton] at hx2
      exact hmem (hx2 ▸ hx)

theorem exitCode_eq_length (t : ErrTable) : exitCode t = t.length := by
  cases t <;> simp [exitCode]

/-- C1 as amended: the exit code equals the number of distinct projects
that recorded at least one error diagnostic (the errors table holds one
entry per such project, not one per diagnostic), and it is zero exactly
when no error event was recorded at all; the warnings table is never
consulted by the exit computation. -/
theorem claim_C1_amended (events : List (String × Side × String)) :
    exitCode (errsFrom events) = ((events.map (fun x => x.1)).dedup).length ∧
    (exitCode (errsFrom events) = 0 ↔ events = []) := by
  have hlen : exitCode (errsFrom events) = ((events.map (fun x => x.1)).dedup).length := by
    rw [exitCode_eq_length]
    have hklen : (keysOf (errsFrom events)).length = (errsFrom events).length := by
      simp [keysOf]
    rw [← hklen]
    have hnd : (keysOf (errsFrom events)).Nodup :=
      nodup_keysOf_errsFrom_aux events [] (by simp [keysOf])
    have hnd2 : ((events.map (fun x => x.1)).dedup).Nodup := List.nodup_dedup _
    have hset : (keysOf (errsFrom events)).toFinset
        = ((events.map (fun x => x.1)).dedup).toFinset := by
      ext p
      rw [List.mem_toFinset, List.mem_toFinset, List.mem_dedup]
      rw [show errsFrom events
            = events.foldl (fun t ev => addError t ev.1 ev.2.1 ev.2.2) [] from rfl]
      rw [mem_keysOf_errsFrom_aux events [] p]
      simp [keysOf]
    calc (keysOf (errsFrom events)).length
        = (keysOf (errsFrom events)).toFinset.card := (List.toFinset_card_of_nodup hnd).symm
      _ = ((events.map (fun x => x.1)).dedup).toFinset.card := by rw [hset]
      _ = ((events.map (fun x => x.1)).dedup).length := List.toFinset_card_of_nodup hnd2
  refine ⟨hlen, ?_⟩
  rw [hlen]
  simp [List.length_eq_zero, List.dedup_eq_nil]

/-- Environment of the C1 counterexample: every unit fails to compile. -/
def envC1 : String → Side → UnitSpec := fun _ _ =>
  { compileRes := Except.error ("compile failed"), packageRes := Except.ok false,
    obfuscateRes := Except.ok () }

/-- Counterexample to C1: one project failing on both the client and the
server side records two distinct error diagnostics, yet the exit code is
the number of projects in the errors table, one, so the exit code does not
equal the number of distinct error diagnostics across projects and
variants. -/
theorem claim_C1_cx :
    totalDiags (errsFrom (mainLoop envC1 (["Demo"]) [Side.client, Side.server]).2) = 2 ∧
    exitCode (errsFrom (mainLoop envC1 (["Demo"]) [Side.client, Side.server]).2) = 1 ∧
    ¬(exitCode (errsFrom (mainLoop envC1 (["Demo"]) [Side.client, Side.server]).2)
        = totalDiags (errsFrom (mainLoop envC1 (["Demo"]) [Side.client, Side.server]).2)) := by
  refine ⟨by decide, by decide, by decide⟩

/-! ## API phase of the run

The loops that build the preliminary API-only units carry no try block:
for each project with a non-empty api list, every side is compiled with
api=True, and an exception propagates out of both loops and ends the whole
script.  The body outcome models the compile call; the result pairs the
units actually attempted with the exception that escaped, if any. -/

def apiSides (body : String → Side → Option String) (p : String) :
    List Side → List (String × Side) × Option String
  | [] => ([], none)
  | s :: rest =>
    match body p s with
    | some e => ([(p, s)], some e)
    | none =>
      let next := apiSides body p rest
      ((p, s) :: next.1, next.2)

def apiPhase (body : String → Side → Option String) (hasApi : String → Bool)
    (sides : List Side) : List String → List (String × Side) × Option String
  | [] => ([], none)
  | p :: rest =>
    if hasApi p then
      match apiSides body p sides with
      | (us, some e) => (us, some e)
      | (us, none) =>
        let next := apiPhase body hasApi sides rest
        (us ++ next.1, next.2)
    else apiPhase body hasApi sides rest

/-- API compile outcomes of the C2 counterexample: project Alpha raises,
project Beta would succeed. -/
def bodyC2 : String → Side → Option String := fun p _ =>
  if p = "Alpha" then some ("boom") else none

/-- Counterexample to C2: in the preliminary API phase an exception in the
unit (Alpha, client) escapes the loops uncaught, ending the run, so the
sibling API unit (Beta, client) never runs and no diagnostic is recorded,
contradicting the claim for API-only units. -/
theorem claim_C2_cx :
    apiPhase bodyC2 (fun _ => true) [Side.client] (["Alpha", "Beta"])
      = ([("Alpha", Side.client)], some ("boom")) ∧
    (("Beta", Side.client) ∉
      (apiPhase bodyC2 (fun _ => true) [Side.client] (["Alpha", "Beta"])).1) := by
  refine ⟨by decide, by decide⟩

theorem sideLoop_units (env : String → Side → UnitSpec) (p : String) :
    ∀ sides : List Side,
      (sideLoop env p sides).1.map (fun u => (u.1, u.2.1))
        = sides.map (fun s => (p, s)) := by
  intro sides
  induction sides with
  | nil => simp [sideLoop]
  | cons s rest ih => simp [sideLoop, ih]

theorem sideLoop_events (env : String → Side → UnitSpec) (p : String) :
    ∀ (sides : List Side) (p2 : String) (s : Side) (e : String),
      (p2, s, e) ∈ (sideLoop env p sides).2
        ↔ (p2 = p ∧ s ∈ sides ∧ (runUnit (env p s)).2 = some e) := by
  intro sides
  induction sides with
  | nil => intro p2 s e; simp [sideLoop]
  | cons s2 rest ih =>
    intro p2 s e
    rw [sideLoop]
    cases h : (runUnit (env p s2)).2 with
    | none =>
      simp only [h, List.nil_append, List.mem_cons]
      rw [ih]
      constructor
      · rintro ⟨rfl, hs, hr⟩
        refine ⟨rfl, by simp [hs], hr⟩
      · rintro ⟨rfl, hs, hr⟩
        rcases (by simpa using hs : s = s2 ∨ s ∈ rest) with rfl | h2
        · rw [h] at hr; cases hr
        · exact ⟨rfl, h2, hr⟩
    | some e2 =>
      simp only [h, List.singleton_append, List.mem_cons]
      rw [ih]
      constructor
      · rintro (heq | ⟨rfl, hs, hr⟩)
        · obtain ⟨rfl, rfl, rfl⟩ := Prod.mk.injEq .. ▸ (by
            injection heq with h1 h23
            injection h23 with h2 h3
            exact ⟨h1, h2, h3⟩ : p2 = p ∧ s = s2 ∧ e = e2)
          exact ⟨rfl, by simp, by rw [h]⟩
        · exact ⟨rfl, by simp [hs], hr⟩
      · rintro ⟨rfl, hs, hr⟩
        rcases (by simpa using hs : s = s2 ∨ s ∈ rest) with rfl | h2
        · rw [h] at hr
          injection hr with he
          exact Or.inl (by rw [he])
        · exact Or.inr ⟨rfl, h2, hr⟩

theorem mainLoop_units (env : String → Side → UnitSpec) (sides : List Side) :
    ∀ ps : List String,
      (mainLoop env ps sides).1.map (fun u => (u.1, u.2.1))
        = (ps.map (fun p => sides.map (fun s => (p, s)))).flatten := by
  intro ps
  induction ps with
  | nil => simp [mainLoop]
  | cons p rest ih => simp [mainLoop, ih, sideLoop_units]

theorem mainLoop_events (env : String → Side → UnitSpec) (sides : List Side) :
    ∀ (ps : List String) (p : String) (s : Side) (e : String),
      (p, s, e) ∈ (mainLoop env ps sides).2
        ↔ (p ∈ ps ∧ s ∈ sides ∧ (runUnit (env p s)).2 = some e) := by
  intro ps
  induction ps with
  | nil => intro p s e; simp [mainLoop]
  | cons p2 rest ih =>
    intro p s e
    rw [mainLoop]
    simp only [List.mem_append]
    rw [ih, sideLoop_events]
    constructor
    · rintro (⟨rfl, hs, hr⟩ | ⟨hp, hs, hr⟩)
      · exact ⟨by simp, hs, hr⟩
      · exact ⟨by simp [hp], hs, hr⟩
    · rintro ⟨hp, hs, hr⟩
      rcases (by simpa using hp : p = p2 ∨ p ∈ rest) with rfl | h2
      · exact Or.inl ⟨rfl, hs, hr⟩
      · exact Or.inr ⟨h2, hs, hr⟩

/-- C2 as amended: in the main build loop every unit of every project and
side is attempted regardless of earlier failures, an exception raised in a
unit is recorded as a diagnostic for exactly that project and side, and a
failing stage aborts only the remaining stages of that unit; an exception
in a preliminary API-only unit, by contrast, propagates uncaught and ends
the whole run (the counterexample exhibits this). -/
theorem claim_C2_amended (env : String → Side → UnitSpec)
    (ps : List String) (sides : List Side) :
    ((mainLoop env ps sides).1.map (fun u => (u.1, u.2.1))
       = (ps.map (fun p => sides.map (fun s => (p, s)))).flatten) ∧
    (∀ p s e, (p, s, e) ∈ (mainLoop env ps sides).2
       ↔ (p ∈ ps ∧ s ∈ sides ∧ (runUnit (env p s)).2 = some e)) ∧
    (∀ u e, u.compileRes = Except.error e →
       runUnit u = ([Stage.compile], some e)) ∧
    (∀ u e, u.compileRes = Except.ok () → u.packageRes = Except.error e →
       runUnit u = ([Stage.compile, Stage.package], some e)) ∧
    (∀ u e, u.compileRes = Except.ok () → u.packageRes = Except.ok true →
       u.obfuscateRes = Except.error e →
       runUnit u = ([Stage.compile, Stage.package, Stage.obfuscate], some e)) := by
  refine ⟨mainLoop_units env sides ps, mainLoop_events env sides ps, ?_, ?_, ?_⟩
  · intro u e h; simp [runUnit, h]
  · intro u e h1 h2; simp [runUnit, h1, h2]
  · intro u e h1 h2 h3; simp [runUnit, h1, h2, h3]

/-- Main-phase unit outcome of the C2 witness: compile raises. -/
def uFailW : UnitSpec :=
  { compileRes := Except.error ("boom"), packageRes := Except.ok false,
    obfuscateRes := Except.ok () }

/-- Witness for the amended C2 at concrete inputs: the failing unit stops
after its compile stage and its exception is recorded for its project and
side. -/
theorem claim_C2_amended_witness :
    runUnit uFailW = ([Stage.compile], some ("boom")) ∧
    (("Alpha", Side.client, "boom")
      ∈ (mainLoop (fun _ _ => uFailW) (["Alpha"]) [Side.client]).2) := by
  constructor
  · exact (claim_C2_amended (fun _ _ => uFailW) (["Alpha"]) [Side.client]).2.2.1
      uFailW ("boom") rfl
  · exact ((claim_C2_amended (fun _ _ => uFailW) (["Alpha"]) [Side.client]).2.1
      ("Alpha") Side.client ("boom")).mpr ⟨by decide, by decide, rfl⟩

end MCPRebuild
